import Mathlib

/-!
Verification of the go-gc-analyzer core: a shallow embedding of the
statistical analysis engine (`internal/analysis/analyzer.go`), the sampling
collector's history management and event reconstruction
(`internal/collector/collector.go`), and the reader-side copy semantics of
the collector (`GetMetrics` / `GetLatestMetrics` with `GCMetrics.Clone` from
`pkg/types/metrics.go`).

Modelling conventions:
* Go `uint32` / `uint64` values are `ℕ`; wrap-around is applied explicitly
  (`u32sub`, `u64sub`, `toInt64`, `i64wrap`) at the operations where the Go
  code can wrap.
* `time.Time` and `time.Duration` are nanosecond counts in `ℤ` (Go
  `time.Duration` is an `int64` nanosecond count).
* `float64` quantities are `ℚ`.  The only float operation whose rounding
  could matter is `int(float64(n) * p)` for p = 0.95 / 0.99 (percentile
  indices); because the nearest `float64` to p differs from p by under
  2^(-54)·p and n·p is either an exact integer or at least 1/100 away from
  one, `int(float64(n)*p) = ⌊n·p⌋` for every list length `n` that fits in an
  `int`, so the `ℕ` division `n * num / den` is an exact model.
* Go's `sort.Slice` ascending sort on `[]time.Duration` is modelled by
  `List.insertionSort (· ≤ ·)`: the ascending-sorted permutation of a list
  of integers is unique, so any correct sort has the same output.
-/

namespace GCA

/-- Wrapping `uint32` subtraction `a - b` (Go semantics) for `a b < 2^32`. -/
def u32sub (a b : ℕ) : ℕ := (a + 2 ^ 32 - b) % 2 ^ 32

/-- Wrapping `uint64` subtraction `a - b` (Go semantics) for `a b < 2^64`. -/
def u64sub (a b : ℕ) : ℕ := (a + 2 ^ 64 - b) % 2 ^ 64

/-- Go conversion `int64(u)` of a `uint64` value `u`. -/
def toInt64 (u : ℕ) : ℤ := if u % 2 ^ 64 < 2 ^ 63 then (u % 2 ^ 64 : ℤ) else (u % 2 ^ 64 : ℤ) - 2 ^ 64

/-- Wrap an integer into `int64` range (Go two's-complement overflow). -/
def i64wrap (z : ℤ) : ℤ := (z + 2 ^ 63) % 2 ^ 64 - 2 ^ 63

/-- Embedding of `types.GCMetrics` (`pkg/types/metrics.go`): one snapshot of
the runtime's GC counters.  Only the fields the analyzer and collector read
are carried; `PauseNs` / `PauseEnd` are the circular pause buffers. -/
structure GCMetricsV where
  numGC : ℕ
  pauseTotalNs : ℕ
  pauseNs : List ℕ
  pauseEnd : List ℕ
  lastGCNs : ℤ
  heapAlloc : ℕ
  heapSys : ℕ
  heapInuse : ℕ
  totalAlloc : ℕ
  mallocs : ℕ
  frees : ℕ
  nextGC : ℕ
  gcCPUFraction : ℚ
  timestampNs : ℤ
  deriving Repr, DecidableEq, Inhabited

/-- Embedding of `types.GCEvent`: one reconstructed collection cycle. -/
structure GCEventV where
  sequence : ℕ
  startTimeNs : ℤ
  endTimeNs : ℤ
  durationNs : ℤ
  heapBefore : ℕ
  heapAfter : ℕ
  heapReleased : ℕ
  triggerReason : String
  deriving Repr, DecidableEq, Inhabited

/-- Embedding of `types.GCAnalysis`: the aggregate analysis result. -/
structure GCAnalysisV where
  period : ℤ
  startTimeNs : ℤ
  endTimeNs : ℤ
  gcFrequency : ℚ
  avgGCInterval : ℤ
  avgPauseTime : ℤ
  minPauseTime : ℤ
  maxPauseTime : ℤ
  p95PauseTime : ℤ
  p99PauseTime : ℤ
  avgHeapSize : ℕ
  minHeapSize : ℕ
  maxHeapSize : ℕ
  heapGrowthRate : ℚ
  allocRate : ℚ
  allocCount : ℕ
  freeCount : ℕ
  gcOverhead : ℚ
  memoryEfficiency : ℚ
  recommendations : List String
  deriving Repr, DecidableEq, Inhabited

/-- `types.ErrInsufficientData`, the only error the analyzer produces. -/
inductive AnalyzerError where
  | insufficientData
  deriving Repr, DecidableEq

/-- `a.metrics[0]` (the analyzer is only run with a non-empty slice). -/
def firstM (ms : List GCMetricsV) : GCMetricsV := ms.headD default

/-- `a.metrics[len(a.metrics)-1]`. -/
def lastM (ms : List GCMetricsV) : GCMetricsV := ms.getLastD default

/-- `last.Timestamp.Sub(first.Timestamp)` in nanoseconds. -/
def periodOf (ms : List GCMetricsV) : ℤ := (lastM ms).timestampNs - (firstM ms).timestampNs

/-- `analysis.Period.Seconds()`. -/
def periodSecondsOf (ms : List GCMetricsV) : ℚ := (periodOf ms : ℚ) / 1000000000

/-- `gcCount := last.NumGC - first.NumGC` (uint32 arithmetic). -/
def gcCountOf (ms : List GCMetricsV) : ℕ := u32sub (lastM ms).numGC (firstM ms).numGC

/-- `analyzeGCFrequency`, `GCFrequency` field: `float64(gcCount) / Period.Seconds()`
when the period is positive, else the zero initial value. -/
def gcFrequencyOf (ms : List GCMetricsV) : ℚ :=
  if ms.length < 2 then 0
  else if 0 < periodSecondsOf ms then (gcCountOf ms : ℚ) / periodSecondsOf ms else 0

/-- `analyzeGCFrequency`, `AvgGCInterval` field: `Period / time.Duration(gcCount)`
(int64 division) when `gcCount > 0`, else the zero initial value. -/
def avgGCIntervalOf (ms : List GCMetricsV) : ℤ :=
  if ms.length < 2 then 0
  else if 0 < gcCountOf ms then Int.tdiv (periodOf ms) (gcCountOf ms : ℤ) else 0

/-- The five pause-time fields of the analysis. -/
structure PauseStats where
  avg : ℤ
  min : ℤ
  max : ℤ
  p95 : ℤ
  p99 : ℤ
  deriving Repr, DecidableEq, Inhabited

/-- The zero value: fields left untouched by an analysis method keep it. -/
def PauseStats.zero : PauseStats := ⟨0, 0, 0, 0, 0⟩

/-- `sort.Slice(durations, func(i, j) { durations[i] < durations[j] })`. -/
def sortDurations (l : List ℤ) : List ℤ := List.insertionSort (· ≤ ·) l

/-- The percentile index `int(float64(n) * p)` for `p = num/den` as computed
inline in `analyzePauseTimes` / `analyzePauseTimesFromMetrics` (exact for
every `n` that fits in an `int`, see the header note on floats). -/
def percIndex (n num den : ℕ) : ℕ := n * num / den

/-- `analyzePauseTimes`, event path: statistics over the sorted event
durations; `AvgPauseTime = total / time.Duration(len(durations))`, the
percentile reads guarded by `index < len(durations)`. -/
def pauseStatsFromEvents (evs : List GCEventV) : PauseStats :=
  let total := (evs.map (·.durationNs)).sum
  let durations := sortDurations (evs.map (·.durationNs))
  let n := durations.length
  { avg := Int.tdiv total (n : ℤ)
    min := durations.headD 0
    max := durations.getLastD 0
    p95 := if percIndex n 95 100 < n then durations.getD (percIndex n 95 100) 0 else 0
    p99 := if percIndex n 99 100 < n then durations.getD (percIndex n 99 100) 0 else 0 }

/-- The strictly positive entries of every snapshot's `PauseNs` buffer, in
snapshot order, each converted by `time.Duration(pauseNs)` (int64). -/
def positivePauses (ms : List GCMetricsV) : List ℤ :=
  (ms.map fun m => (m.pauseNs.filter fun p => decide (0 < p)).map toInt64).flatten

/-- `analyzePauseTimesFromMetrics`: the fallback path used when no events are
supplied.  The average comes from the cumulative `PauseTotalNs` delta over
the `NumGC` delta; min/max/percentiles come from the sorted positive buffer
entries (all fields keep their zero value when their branch is not taken). -/
def pauseStatsFromMetrics (ms : List GCMetricsV) : PauseStats :=
  if ms.length < 2 then PauseStats.zero
  else
    let totalGCs := u32sub (lastM ms).numGC (firstM ms).numGC
    let totalPause := toInt64 (u64sub (lastM ms).pauseTotalNs (firstM ms).pauseTotalNs)
    let avg := if 0 < totalGCs then Int.tdiv totalPause (totalGCs : ℤ) else 0
    let pauses := sortDurations (positivePauses ms)
    let n := pauses.length
    if 0 < n then
      { avg := avg
        min := pauses.headD 0
        max := pauses.getLastD 0
        p95 := if percIndex n 95 100 < n then pauses.getD (percIndex n 95 100) 0 else 0
        p99 := if percIndex n 99 100 < n then pauses.getD (percIndex n 99 100) 0 else 0 }
    else { PauseStats.zero with avg := avg }

/-- `analyzePauseTimes`: events if available, else the metrics fallback. -/
def pauseStatsOf (ms : List GCMetricsV) (evs : List GCEventV) : PauseStats :=
  if evs.length = 0 then pauseStatsFromMetrics ms else pauseStatsFromEvents evs

/-- `analyzeMemoryUsage` accumulator: `totalHeap` (uint64 accumulation). -/
def totalHeapOf (ms : List GCMetricsV) : ℕ := ((ms.map (·.heapAlloc)).sum) % 2 ^ 64

/-- `AvgHeapSize = totalHeap / uint64(len(a.metrics))`. -/
def avgHeapSizeOf (ms : List GCMetricsV) : ℕ :=
  if ms.length = 0 then 0 else totalHeapOf ms / ms.length

/-- `MinHeapSize`: running minimum seeded from the first snapshot. -/
def minHeapOf (ms : List GCMetricsV) : ℕ :=
  match ms.map (·.heapAlloc) with
  | [] => 0
  | h :: t => t.foldl Nat.min h

/-- `MaxHeapSize`: running maximum seeded from the first snapshot. -/
def maxHeapOf (ms : List GCMetricsV) : ℕ :=
  match ms.map (·.heapAlloc) with
  | [] => 0
  | h :: t => t.foldl Nat.max h

/-- `HeapGrowthRate = float64(int64(last.HeapAlloc) - int64(first.HeapAlloc)) / Period.Seconds()`
(signed, int64 arithmetic), guarded by `len >= 2 && Period.Seconds() > 0`. -/
def heapGrowthRateOf (ms : List GCMetricsV) : ℚ :=
  if 2 ≤ ms.length ∧ 0 < periodSecondsOf ms then
    (i64wrap (toInt64 (lastM ms).heapAlloc - toInt64 (firstM ms).heapAlloc) : ℚ) / periodSecondsOf ms
  else 0

/-- `analyzeAllocations`, `AllocCount` field (uint64 delta). -/
def allocCountOf (ms : List GCMetricsV) : ℕ :=
  if ms.length < 2 then 0 else u64sub (lastM ms).mallocs (firstM ms).mallocs

/-- `analyzeAllocations`, `FreeCount` field (uint64 delta). -/
def freeCountOf (ms : List GCMetricsV) : ℕ :=
  if ms.length < 2 then 0 else u64sub (lastM ms).frees (firstM ms).frees

/-- `AllocRate = float64(last.TotalAlloc - first.TotalAlloc) / Period.Seconds()`. -/
def allocRateOf (ms : List GCMetricsV) : ℚ :=
  if 2 ≤ ms.length ∧ 0 < periodSecondsOf ms then
    (u64sub (lastM ms).totalAlloc (firstM ms).totalAlloc : ℚ) / periodSecondsOf ms
  else 0

/-- `calculateEfficiencyMetrics`, `GCOverhead` field: mean of the
non-negative `GCCPUFraction` samples times 100. -/
def gcOverheadOf (ms : List GCMetricsV) : ℚ :=
  let valid := ms.filter fun m => decide (0 ≤ m.gcCPUFraction)
  if 0 < valid.length then ((valid.map (·.gcCPUFraction)).sum / (valid.length : ℚ)) * 100 else 0

/-- `avgHeapSys := totalHeapSys / uint64(len(a.metrics))`. -/
def avgHeapSysOf (ms : List GCMetricsV) : ℕ :=
  if ms.length = 0 then 0 else (((ms.map (·.heapSys)).sum) % 2 ^ 64) / ms.length

/-- `MemoryEfficiency = (AvgHeapSize / avgHeapSys) * 100`, guarded against
zero `AvgHeapSize` and zero `avgHeapSys`. -/
def memoryEfficiencyOf (ms : List GCMetricsV) : ℚ :=
  if 0 < avgHeapSizeOf ms then
    if 0 < avgHeapSysOf ms then ((avgHeapSizeOf ms : ℚ) / (avgHeapSysOf ms : ℚ)) * 100 else 0
  else 0

/-- `calculateRecentGrowthTrend`: mean relative heap growth across the final
`MinSamplesForTrendAnalysis = 10` snapshots, skipping zero predecessors. -/
def calculateRecentGrowthTrend (ms : List GCMetricsV) : ℚ :=
  if ms.length < 10 then 0
  else
    let recent := ms.drop (ms.length - 10)
    let pairs := (recent.zip recent.tail).filter fun pc => decide (0 < pc.1.heapAlloc)
    let growths := pairs.map fun pc =>
      ((pc.2.heapAlloc : ℚ) - (pc.1.heapAlloc : ℚ)) / (pc.1.heapAlloc : ℚ)
    if 0 < growths.length then growths.sum / (growths.length : ℚ) else 0

/-- `generateRecommendations`: one fixed advisory string per violated
threshold, in the code's evaluation order. -/
def generateRecommendations (ms : List GCMetricsV) (a : GCAnalysisV) : List String :=
  (if 10 < a.gcFrequency then
    ["High GC frequency detected. Consider reducing allocation rate or increasing GOGC value."]
  else []) ++
  (if 100000000 < a.avgPauseTime then
    ["Long GC pause times detected. Consider reducing heap size or optimizing allocation patterns."]
  else []) ++
  (if 500000000 < a.p99PauseTime then
    ["Very long P99 pause times detected. This may impact application responsiveness."]
  else []) ++
  (if 10485760 < a.heapGrowthRate then
    ["High heap growth rate detected. Check for memory leaks or excessive allocations."]
  else []) ++
  (if 25 < a.gcOverhead then
    ["High GC overhead detected. Consider optimizing allocation patterns or tuning GC parameters."]
  else []) ++
  (if a.memoryEfficiency < 50 then
    ["Low memory efficiency detected. Consider reducing heap fragmentation or optimizing data structures."]
  else []) ++
  (if 104857600 < a.allocRate then
    ["High allocation rate detected. Consider object pooling or reducing temporary object creation."]
  else []) ++
  (if 10 ≤ ms.length ∧ 1 / 10 < calculateRecentGrowthTrend ms then
    ["Consistent memory growth detected. Investigate potential memory leaks."]
  else [])

/-- The `GCAnalysis` value assembled by `Analyze` after the length guard:
each sub-computation fills its own disjoint fields, and
`generateRecommendations` runs last, reading the computed fields. -/
def buildAnalysis (ms : List GCMetricsV) (evs : List GCEventV) : GCAnalysisV :=
  let ps := pauseStatsOf ms evs
  let base : GCAnalysisV :=
    { period := periodOf ms
      startTimeNs := (firstM ms).timestampNs
      endTimeNs := (lastM ms).timestampNs
      gcFrequency := gcFrequencyOf ms
      avgGCInterval := avgGCIntervalOf ms
      avgPauseTime := ps.avg
      minPauseTime := ps.min
      maxPauseTime := ps.max
      p95PauseTime := ps.p95
      p99PauseTime := ps.p99
      avgHeapSize := avgHeapSizeOf ms
      minHeapSize := minHeapOf ms
      maxHeapSize := maxHeapOf ms
      heapGrowthRate := heapGrowthRateOf ms
      allocRate := allocRateOf ms
      allocCount := allocCountOf ms
      freeCount := freeCountOf ms
      gcOverhead := gcOverheadOf ms
      memoryEfficiency := memoryEfficiencyOf ms
      recommendations := [] }
  { base with recommendations := generateRecommendations ms base }

/-- `Analyzer.Analyze`: `ErrInsufficientData` for fewer than two snapshots,
otherwise the assembled analysis. -/
def analyze (ms : List GCMetricsV) (evs : List GCEventV) : Except AnalyzerError GCAnalysisV :=
  if ms.length < 2 then .error .insufficientData else .ok (buildAnalysis ms evs)

/-- `GetPauseTimeDistribution` bucket choice for one event duration (the
`switch` over `event.Duration`, `default` being the last bucket). -/
def bucketLabel (d : ℤ) : String :=
  if d < 1000000 then "0-1ms"
  else if d < 5000000 then "1-5ms"
  else if d < 10000000 then "5-10ms"
  else if d < 50000000 then "10-50ms"
  else if d < 100000000 then "50-100ms"
  else "100ms+"

/-- The fixed bucket labels in the order of the initial map literal. -/
def bucketLabels : List String := ["0-1ms", "1-5ms", "5-10ms", "10-50ms", "50-100ms", "100ms+"]

/-- Go map increment `m[k]++`: bump the entry for `k`, or insert `(k, 1)`
when absent (Go maps hold each key once; the association list mirrors
that, updating the first occurrence). -/
def mapIncr : List (String × ℕ) → String → List (String × ℕ)
  | [], k => [(k, 1)]
  | (k', v) :: rest, k => if k' = k then (k', v + 1) :: rest else (k', v) :: mapIncr rest k

/-- `GetPauseTimeDistribution`: the six-bucket map pre-populated at zero,
then one increment per event. -/
def getPauseTimeDistribution (evs : List GCEventV) : List (String × ℕ) :=
  evs.foldl (fun acc e => mapIncr acc (bucketLabel e.durationNs))
    [("0-1ms", 0), ("1-5ms", 0), ("5-10ms", 0), ("10-50ms", 0), ("50-100ms", 0), ("100ms+", 0)]

/-- `guessTriggerReason` (collector.go).  `time.Since(metrics.LastGC)` reads
the wall clock, modelled as the explicit `nowNs` argument; two minutes is
`120e9` nanoseconds. -/
def guessTriggerReason (nowNs : ℤ) (m : GCMetricsV) : String :=
  if m.nextGC ≤ m.heapAlloc then "heap_size"
  else if m.nextGC < m.heapAlloc / 2 then "forced"
  else if 120000000000 < nowNs - m.lastGCNs then "periodic"
  else "automatic"

/-- The pause-buffer index for the `i`-th reconstructed event in
`detectGCEvents`: `(current.NumGC - newGCCount + i) % pauseLen` with
`uint32` arithmetic, where `newGCCount = current.NumGC - lastGCCount`. -/
def pauseIndexAt (lastGCCount : ℕ) (current : GCMetricsV) (i : ℕ) : ℕ :=
  ((u32sub current.numGC (u32sub current.numGC lastGCCount) + i) % 2 ^ 32)
    % current.pauseNs.length

/-- `detectGCEvents` (collector.go): walk the circular pause buffer and
reconstruct one event per elapsed cycle (skipped entirely in lite mode,
when the buffer is empty).  All counter arithmetic is `uint32`
(wrapping). -/
def detectGCEvents (nowNs : ℤ) (lastGCCount : ℕ) (current : GCMetricsV) : List GCEventV :=
  if current.pauseNs.length = 0 then []
  else
    (List.range (u32sub current.numGC lastGCCount)).map fun i =>
      { sequence := (u32sub current.numGC (u32sub current.numGC lastGCCount) + i + 1) % 2 ^ 32
        startTimeNs := toInt64 (current.pauseEnd.getD (pauseIndexAt lastGCCount current i) 0)
          - toInt64 (current.pauseNs.getD (pauseIndexAt lastGCCount current i) 0)
        endTimeNs := toInt64 (current.pauseEnd.getD (pauseIndexAt lastGCCount current i) 0)
        durationNs := toInt64 (current.pauseNs.getD (pauseIndexAt lastGCCount current i) 0)
        heapBefore := 0
        heapAfter := 0
        heapReleased := 0
        triggerReason := guessTriggerReason nowNs current }

/-- `addMetrics` / `addEvent` trimming: append, then drop the oldest
entries beyond `maxSamples` (`c.metrics = c.metrics[excess:]`). -/
def capAppend (cap : ℕ) (xs : List α) (x : α) : List α :=
  if cap < (xs ++ [x]).length then (xs ++ [x]).drop ((xs ++ [x]).length - cap) else xs ++ [x]

/-- The collector's bounded history: retained snapshots and events plus the
configured `maxSamples` cap shared by both. -/
structure CState where
  maxSamples : ℕ
  metrics : List GCMetricsV
  events : List GCEventV
  deriving Repr, DecidableEq

/-- `addMetrics`: store a snapshot, evicting the oldest beyond the cap. -/
def addMetricsC (st : CState) (m : GCMetricsV) : CState :=
  { st with metrics := capAppend st.maxSamples st.metrics m }

/-- `addEvent`: store an event, evicting the oldest beyond the cap. -/
def addEventC (st : CState) (e : GCEventV) : CState :=
  { st with events := capAppend st.maxSamples st.events e }

/-- One collector insertion: either a snapshot or an event. -/
def collectStep (st : CState) : GCMetricsV ⊕ GCEventV → CState
  | .inl m => addMetricsC st m
  | .inr e => addEventC st e

/-- The history after an arbitrary interleaving of insertions into an
initially empty collector with cap `cap`. -/
def runCollector (cap : ℕ) (inputs : List (GCMetricsV ⊕ GCEventV)) : CState :=
  inputs.foldl collectStep ⟨cap, [], []⟩

/-! ### Pointer-level model of the reader-side copy semantics

`GetMetrics` returns `[]*GCMetrics` — a fresh slice holding the *same
pointers* as the internal history — while `GetLatestMetrics` returns
`latest.Clone()`, a fresh object whose pause slices are freshly allocated
copies.  To state what mutation through a returned pointer does, the
objects live in an explicit heap: an address is an index into a list of
objects, a `GCMetrics` object holds its scalar field and a reference to its
pause-buffer array object, and a store through a pointer is `List.set`. -/

/-- A heap object: a `GCMetrics` struct (scalar field + pause-slice
reference) or a pause-buffer array. -/
inductive HObj where
  | metricsObj (numGC : ℕ) (pauseRef : ℕ)
  | arrObj (data : List ℕ)
  deriving Repr, DecidableEq, Inhabited

/-- The collector's memory: the heap and the internal `c.metrics` slice of
pointers. -/
structure CollectorMem where
  heap : List HObj
  metricsAddrs : List ℕ
  deriving Repr, DecidableEq

/-- Dereference an address. -/
def readObj (h : List HObj) (a : ℕ) : HObj := h.getD a (HObj.arrObj [])

/-- Read the fields of the `GCMetrics` object at `a`. -/
def readMetricsCell (h : List HObj) (a : ℕ) : ℕ × ℕ :=
  match readObj h a with
  | .metricsObj n pr => (n, pr)
  | .arrObj _ => (0, 0)

/-- Read the pause-buffer array at `a`. -/
def readArr (h : List HObj) (a : ℕ) : List ℕ :=
  match readObj h a with
  | .arrObj d => d
  | .metricsObj _ _ => []

/-- The observable value of the snapshot at `a`: scalar field plus the
contents of its pause buffer. -/
def metricsValue (h : List HObj) (a : ℕ) : ℕ × List ℕ :=
  ((readMetricsCell h a).1, readArr h (readMetricsCell h a).2)

/-- The collector's internal metrics storage as observable values. -/
def internalView (st : CollectorMem) : List (ℕ × List ℕ) :=
  st.metricsAddrs.map (metricsValue st.heap)

/-- `GetMetrics`: `copy(result, c.metrics)` — a fresh slice containing the
same pointers. -/
def getMetricsPtrs (st : CollectorMem) : List ℕ := st.metricsAddrs

/-- A store through a `*GCMetrics` pointer: overwrite the scalar field of
the object at `a` (no-op on a dangling address, which cannot occur). -/
def writeNumGC (h : List HObj) (a v : ℕ) : List HObj :=
  h.set a (match readObj h a with
    | .metricsObj _ pr => .metricsObj v pr
    | o => o)

/-- A store into a pause-buffer array: overwrite the array object at `a`. -/
def writeArr (h : List HObj) (a : ℕ) (d : List ℕ) : List HObj :=
  h.set a (HObj.arrObj d)

/-- `GetLatestMetrics` on a non-empty history: `c.metrics[len-1].Clone()` —
allocate a copy of the pause buffer, then a new `GCMetrics` object pointing
at it.  Returns the extended heap and the clone's address. -/
def getLatestClone (st : CollectorMem) : List HObj × ℕ :=
  let a := st.metricsAddrs.getLastD 0
  let c := readMetricsCell st.heap a
  let data := readArr st.heap c.2
  let h1 := st.heap ++ [HObj.arrObj data]
  (h1 ++ [HObj.metricsObj c.1 st.heap.length], h1.length)

/-! ### Spec-side definitions (for refinement comparison only)

These two definitions follow the specification's words, not the source;
they exist solely to be compared with the embedded code. -/

/-- Modelled from the spec: "percentile index `floor((n−1)×p)` clamped to
`[0, n−1]`", for `p = num/den`. -/
def specPercentileIndex (n num den : ℕ) : ℕ :=
  min ((n - 1) * num / den) (n - 1)

/-- Modelled from the spec: the fallback average computed "the same ... as
the event-based path computes over event durations", i.e. the mean of the
extracted positive pause samples (`total / time.Duration(len)`). -/
def specSampleMeanPause (ms : List GCMetricsV) : ℤ :=
  Int.tdiv (positivePauses ms).sum ((positivePauses ms).length : ℤ)

/-- The `AvgPauseTime` field of an analysis result, zero on error. -/
def avgPauseOf : Except AnalyzerError GCAnalysisV → ℤ
  | .ok a => a.avgPauseTime
  | .error _ => 0

/-! ### Concrete inputs for counterexamples and witnesses -/

/-- An event with a given duration (other fields at their zero values). -/
def mkDurEvent (d : ℤ) : GCEventV :=
  { sequence := 0, startTimeNs := 0, endTimeNs := d, durationNs := d,
    heapBefore := 0, heapAfter := 0, heapReleased := 0, triggerReason := "automatic" }

/-- The spec's fixed duration set {0.5ms, 2ms, 7ms, 25ms, 75ms, 150ms, 200ms}. -/
def demoEvents : List GCEventV :=
  [mkDurEvent 500000, mkDurEvent 2000000, mkDurEvent 7000000, mkDurEvent 25000000,
   mkDurEvent 75000000, mkDurEvent 150000000, mkDurEvent 200000000]

/-- A snapshot with every field zero. -/
def zeroMetrics : GCMetricsV :=
  { numGC := 0, pauseTotalNs := 0, pauseNs := [], pauseEnd := [], lastGCNs := 0,
    heapAlloc := 0, heapSys := 0, heapInuse := 0, totalAlloc := 0, mallocs := 0,
    frees := 0, nextGC := 0, gcCPUFraction := 0, timestampNs := 0 }

/-- Two snapshots for the fallback pause path: two GC cycles with a total
pause of 10ns, but a single positive buffer entry of 3ns. -/
def fbMetrics : List GCMetricsV :=
  [zeroMetrics,
   { zeroMetrics with numGC := 2, pauseTotalNs := 10, pauseNs := [3, 0],
                      pauseEnd := [3, 0], timestampNs := 1000000000 }]

/-- Two snapshots for the frequency witness: counter delta 4 over 2s. -/
def freqMetrics : List GCMetricsV :=
  [{ zeroMetrics with numGC := 1 },
   { zeroMetrics with numGC := 5, timestampNs := 2000000000 }]

/-- Two snapshots with a shrinking heap over 2s. -/
def shrinkMetrics : List GCMetricsV :=
  [{ zeroMetrics with heapAlloc := 1000 },
   { zeroMetrics with heapAlloc := 400, timestampNs := 2000000000 }]

/-- A snapshot for the reconstruction witness: counter 8, previous count 5,
pause buffer of width 3. -/
def reconMetrics : GCMetricsV :=
  { zeroMetrics with numGC := 8, pauseNs := [10, 20, 30], pauseEnd := [100, 200, 300] }

/-- A collector memory with one internal snapshot: object 0 is the
`GCMetrics` struct (scalar 7, pause buffer at address 1). -/
def cexMem : CollectorMem :=
  { heap := [HObj.metricsObj 7 1, HObj.arrObj [5, 6]], metricsAddrs := [0] }

/-! ## Helper lemmas -/

theorem u32sub_eq_sub {a b : ℕ} (hba : b ≤ a) (ha : a < 2 ^ 32) : u32sub a b = a - b := by
  unfold u32sub
  omega

theorem toInt64_of_lt {u : ℕ} (h : u < 2 ^ 63) : toInt64 u = (u : ℤ) := by
  unfold toInt64
  have h64 : u % 2 ^ 64 = u := Nat.mod_eq_of_lt (by omega)
  rw [h64, if_pos h]
  omega

theorem i64wrap_of_bounds {z : ℤ} (h1 : -2 ^ 63 ≤ z) (h2 : z < 2 ^ 63) : i64wrap z = z := by
  unfold i64wrap
  omega

theorem percIndex_lt_self {n num den : ℕ} (hn : 0 < n) (hnd : num < den) :
    percIndex n num den < n := by
  unfold percIndex
  have hden : 0 < den := Nat.lt_of_le_of_lt (Nat.zero_le _) hnd
  rw [Nat.div_lt_iff_lt_mul hden]
  exact mul_lt_mul_of_pos_left hnd hn

theorem bucketLabel_mem (d : ℤ) : bucketLabel d ∈ bucketLabels := by
  unfold bucketLabel bucketLabels
  split_ifs <;> simp

theorem mapIncr_keys {m : List (String × ℕ)} {k : String} (hk : k ∈ m.map Prod.fst) :
    (mapIncr m k).map Prod.fst = m.map Prod.fst := by
  induction m with
  | nil => simp at hk
  | cons p rest ih =>
    obtain ⟨k', v⟩ := p
    by_cases h : k' = k
    · simp [mapIncr, h]
    · have hk' : k ∈ rest.map Prod.fst := by
        rcases (by simpa using hk : k = k' ∨ k ∈ rest.map Prod.fst) with h1 | h1
        · exact absurd h1.symm h
        · exact h1
      simp [mapIncr, h, ih hk']

theorem dist_keys_aux : ∀ (evs : List GCEventV) (m : List (String × ℕ)),
    m.map Prod.fst = bucketLabels →
    ((evs.foldl (fun acc e => mapIncr acc (bucketLabel e.durationNs)) m).map Prod.fst
      = bucketLabels)
  | [], _, hm => hm
  | e :: rest, m, hm => by
    have hk : bucketLabel e.durationNs ∈ m.map Prod.fst := by
      rw [hm]; exact bucketLabel_mem _
    simpa using dist_keys_aux rest _ (by rw [mapIncr_keys hk, hm])

theorem mapIncr_snd_sum (m : List (String × ℕ)) (k : String) :
    ((mapIncr m k).map Prod.snd).sum = ((m.map Prod.snd).sum) + 1 := by
  induction m with
  | nil => simp [mapIncr]
  | cons p rest ih =>
    obtain ⟨k', v⟩ := p
    by_cases h : k' = k
    · simp [mapIncr, h]
      omega
    · simp [mapIncr, h, ih]
      omega

theorem dist_sum_aux : ∀ (evs : List GCEventV) (m : List (String × ℕ)),
    (((evs.foldl (fun acc e => mapIncr acc (bucketLabel e.durationNs)) m).map Prod.snd).sum)
      = ((m.map Prod.snd).sum) + evs.length
  | [], _ => by simp
  | e :: rest, m => by
    have h := dist_sum_aux rest (mapIncr m (bucketLabel e.durationNs))
    simp only [List.foldl_cons] at h ⊢
    rw [h, mapIncr_snd_sum]
    simp
    omega

theorem capAppend_length_le (cap : ℕ) (xs : List α) (x : α) :
    (capAppend cap xs x).length ≤ cap := by
  unfold capAppend
  split
  · simp
    omega
  · simp at *
    omega

theorem capAppend_suffix (cap : ℕ) (xs : List α) (x : α) :
    (capAppend cap xs x).IsSuffix (xs ++ [x]) := by
  unfold capAppend
  split
  · exact List.drop_suffix _ _
  · exact List.suffix_refl _

theorem isSuffix_append_same {l₁ l₂ t : List α} (h : l₁.IsSuffix l₂) :
    (l₁ ++ t).IsSuffix (l₂ ++ t) := by
  obtain ⟨u, hu⟩ := h
  exact ⟨u, by rw [← hu, List.append_assoc]⟩

theorem capAppend_suffix_acc {cap : ℕ} {xs acc : List α} (x : α) (h : xs.IsSuffix acc) :
    (capAppend cap xs x).IsSuffix (acc ++ [x]) :=
  (capAppend_suffix cap xs x).trans (isSuffix_append_same h)

theorem runCollector_aux : ∀ (inputs : List (GCMetricsV ⊕ GCEventV)) (st : CState)
    (accM : List GCMetricsV) (accE : List GCEventV),
    st.metrics.IsSuffix accM → st.events.IsSuffix accE →
    st.metrics.length ≤ st.maxSamples → st.events.length ≤ st.maxSamples →
    ((inputs.foldl collectStep st).metrics.length ≤ st.maxSamples ∧
     (inputs.foldl collectStep st).events.length ≤ st.maxSamples ∧
     (inputs.foldl collectStep st).metrics.IsSuffix (accM ++ inputs.filterMap Sum.getLeft?) ∧
     (inputs.foldl collectStep st).events.IsSuffix (accE ++ inputs.filterMap Sum.getRight?))
  | [], st, accM, accE, hm, he, hml, hel => by
    simpa using ⟨hml, hel, hm, he⟩
  | i :: rest, st, accM, accE, hm, he, hml, hel => by
    cases i with
    | inl m =>
      have step := runCollector_aux rest (addMetricsC st m) (accM ++ [m]) accE
        (capAppend_suffix_acc m hm) he (capAppend_length_le _ _ _) hel
      simpa [collectStep, addMetricsC, List.append_assoc] using step
    | inr e =>
      have step := runCollector_aux rest (addEventC st e) accM (accE ++ [e])
        hm (capAppend_suffix_acc e he) hml (capAppend_length_le _ _ _)
      simpa [collectStep, addEventC, List.append_assoc] using step

theorem headD_mem {α : Type} {l : List α} (h : l ≠ []) (d : α) : l.headD d ∈ l := by
  cases l with
  | nil => exact absurd rfl h
  | cons a t => simp

theorem getLastD_mem {α : Type} : ∀ {l : List α}, l ≠ [] → ∀ d : α, l.getLastD d ∈ l
  | [], h, _ => absurd rfl h
  | [a], _, d => by simp
  | a :: b :: t, _, d => by
    rw [List.getLastD_cons]
    exact List.mem_cons_of_mem a (getLastD_mem (by simp) b)

theorem getLastD_of_ne_nil {α : Type} : ∀ {l : List α}, l ≠ [] → ∀ d d' : α,
    l.getLastD d = l.getLastD d'
  | [], h, _, _ => absurd rfl h
  | [_], _, _, _ => by simp
  | _ :: _ :: _, _, _, _ => by simp only [List.getLastD_cons]

theorem sorted_headD_le {l : List ℤ} (hs : l.Sorted (· ≤ ·)) {x : ℤ} (hx : x ∈ l) :
    l.headD 0 ≤ x := by
  cases l with
  | nil => simp at hx
  | cons a t =>
    rcases List.mem_cons.mp hx with rfl | hx'
    · simp
    · simpa using List.rel_of_sorted_cons hs x hx'

theorem sorted_le_getLastD : ∀ {l : List ℤ}, l.Sorted (· ≤ ·) → ∀ {x : ℤ}, x ∈ l →
    x ≤ l.getLastD 0
  | [], _, x, hx => by simp at hx
  | [a], _, x, hx => by
    simp at hx
    subst hx
    simp
  | a :: b :: t, hs, x, hx => by
    rw [List.getLastD_cons]
    rcases List.mem_cons.mp hx with h1 | hx'
    · subst h1
      exact List.rel_of_sorted_cons hs _ (getLastD_mem (by simp) x)
    · rw [getLastD_of_ne_nil (l := b :: t) (by simp) a 0]
      exact sorted_le_getLastD hs.of_cons hx'

theorem chain_lt_first_last {α : Type} [Inhabited α] (f : α → ℤ) :
    ∀ (l : List α), List.Chain' (fun a b => f a < f b) l → 2 ≤ l.length →
      f (l.headD default) < f (l.getLastD default)
  | [], _, hl => by simp at hl
  | [_], _, hl => by simp at hl
  | a :: b :: t, hc, _ => by
    obtain ⟨hab, hc'⟩ := List.chain'_cons.mp hc
    rw [List.headD_cons, List.getLastD_cons]
    cases t with
    | nil => simpa using hab
    | cons c t2 =>
      have h2 := chain_lt_first_last f (b :: c :: t2) hc' (by simp)
      rw [List.headD_cons] at h2
      have h3 := getLastD_of_ne_nil (l := c :: t2) (by simp) default b
      rw [List.getLastD_cons] at h2
      rw [List.getLastD_cons, ← h3]
      exact lt_trans hab h2

theorem getD_mem_of_lt {α : Type} {l : List α} {n : ℕ} (h : n < l.length) (d : α) :
    l.getD n d ∈ l := by
  rw [List.getD_eq_getElem l d h]
  exact List.getElem_mem h

theorem readObj_append_of_lt {h t : List HObj} {a : ℕ} (ha : a < h.length) :
    readObj (h ++ t) a = readObj h a := by
  unfold readObj
  rw [List.getD_eq_getElem?_getD, List.getD_eq_getElem?_getD, List.getElem?_append, if_pos ha]

theorem readObj_set_ne {h : List HObj} {a b : ℕ} (hab : a ≠ b) (o : HObj) :
    readObj (h.set a o) b = readObj h b := by
  unfold readObj
  rw [List.getD_eq_getElem?_getD, List.getD_eq_getElem?_getD, List.getElem?_set_ne hab]

theorem readObj_concat_length (h : List HObj) (o : HObj) :
    readObj (h ++ [o]) h.length = o := by
  unfold readObj
  rw [List.getD_eq_getElem?_getD, List.getElem?_concat_length]
  rfl

theorem readMetricsCell_append {h t : List HObj} {a : ℕ} (ha : a < h.length) :
    readMetricsCell (h ++ t) a = readMetricsCell h a := by
  unfold readMetricsCell
  rw [readObj_append_of_lt ha]

theorem metricsValue_append {h t : List HObj} {a : ℕ} (ha : a < h.length)
    (hpr : (readMetricsCell h a).2 < h.length) :
    metricsValue (h ++ t) a = metricsValue h a := by
  unfold metricsValue
  rw [readMetricsCell_append ha]
  congr 1
  unfold readArr
  rw [readObj_append_of_lt hpr]

theorem metricsValue_set_other {h : List HObj} {a c : ℕ} (hca : c ≠ a)
    (hpr : c ≠ (readMetricsCell h a).2) (o : HObj) :
    metricsValue (h.set c o) a = metricsValue h a := by
  have h1 : readMetricsCell (h.set c o) a = readMetricsCell h a := by
    unfold readMetricsCell
    rw [readObj_set_ne hca]
  unfold metricsValue
  rw [h1]
  congr 1
  unfold readArr
  rw [readObj_set_ne hpr]

theorem internalView_congr {st : CollectorMem} {h' : List HObj}
    (hpt : ∀ a ∈ st.metricsAddrs, metricsValue h' a = metricsValue st.heap a) :
    internalView ⟨h', st.metricsAddrs⟩ = internalView st := by
  unfold internalView
  exact List.map_congr_left hpt

/-! ## Claim theorems -/

/-- C1: when the cycle counter advanced by `delta > 0` and the pause buffer
(of width `K > 0`) is populated, `detectGCEvents` reconstructs exactly
`delta` events; the `i`-th one reads its duration from the pause buffer at
`(counter − delta + i) mod K`, its end time from the pause-end buffer at
the same index, its start time is end minus duration, and its sequence
number is `counter − delta + i + 1`. -/
theorem detectGCEvents_reconstruction (nowNs : ℤ) (lastGCCount : ℕ) (cm : GCMetricsV)
    (hK : 0 < cm.pauseNs.length)
    (hEnd : cm.pauseEnd.length = cm.pauseNs.length)
    (hAdv : lastGCCount < cm.numGC)
    (hWidth : cm.numGC < 2 ^ 32)
    (hP : ∀ x ∈ cm.pauseNs, x < 2 ^ 63)
    (hE : ∀ x ∈ cm.pauseEnd, x < 2 ^ 63) :
    (detectGCEvents nowNs lastGCCount cm).length = cm.numGC - lastGCCount ∧
    ∀ i, i < cm.numGC - lastGCCount →
      ((detectGCEvents nowNs lastGCCount cm).getD i default).durationNs
        = (cm.pauseNs.getD ((cm.numGC - (cm.numGC - lastGCCount) + i) % cm.pauseNs.length) 0
            : ℤ) ∧
      ((detectGCEvents nowNs lastGCCount cm).getD i default).endTimeNs
        = (cm.pauseEnd.getD ((cm.numGC - (cm.numGC - lastGCCount) + i) % cm.pauseNs.length) 0
            : ℤ) ∧
      ((detectGCEvents nowNs lastGCCount cm).getD i default).startTimeNs
        = ((detectGCEvents nowNs lastGCCount cm).getD i default).endTimeNs
          - ((detectGCEvents nowNs lastGCCount cm).getD i default).durationNs ∧
      ((detectGCEvents nowNs lastGCCount cm).getD i default).sequence
        = cm.numGC - (cm.numGC - lastGCCount) + i + 1 := by
  have hKne : ¬ cm.pauseNs.length = 0 := by omega
  have hdelta : u32sub cm.numGC lastGCCount = cm.numGC - lastGCCount :=
    u32sub_eq_sub hAdv.le hWidth
  have hback : u32sub cm.numGC (u32sub cm.numGC lastGCCount) = lastGCCount := by
    rw [hdelta, u32sub_eq_sub (Nat.sub_le _ _) hWidth]
    omega
  constructor
  · simp [detectGCEvents, hKne, hdelta]
  · intro i hi
    have hi2 : i < u32sub cm.numGC lastGCCount := by rw [hdelta]; exact hi
    have hrange : (List.range (u32sub cm.numGC lastGCCount))[i]? = some i :=
      List.getElem?_range hi2
    have hidx : pauseIndexAt lastGCCount cm i
        = (cm.numGC - (cm.numGC - lastGCCount) + i) % cm.pauseNs.length := by
      unfold pauseIndexAt
      rw [hback]
      have hsmall : lastGCCount + i < 2 ^ 32 := by omega
      rw [Nat.mod_eq_of_lt hsmall]
      congr 1
      omega
    have hseq : (u32sub cm.numGC (u32sub cm.numGC lastGCCount) + i + 1) % 2 ^ 32
        = cm.numGC - (cm.numGC - lastGCCount) + i + 1 := by
      rw [hback]
      have : lastGCCount + i + 1 < 2 ^ 32 := by omega
      rw [Nat.mod_eq_of_lt this]
      omega
    have hgetd : (detectGCEvents nowNs lastGCCount cm).getD i default =
        { sequence := (u32sub cm.numGC (u32sub cm.numGC lastGCCount) + i + 1) % 2 ^ 32
          startTimeNs := toInt64 (cm.pauseEnd.getD (pauseIndexAt lastGCCount cm i) 0)
            - toInt64 (cm.pauseNs.getD (pauseIndexAt lastGCCount cm i) 0)
          endTimeNs := toInt64 (cm.pauseEnd.getD (pauseIndexAt lastGCCount cm i) 0)
          durationNs := toInt64 (cm.pauseNs.getD (pauseIndexAt lastGCCount cm i) 0)
          heapBefore := 0
          heapAfter := 0
          heapReleased := 0
          triggerReason := guessTriggerReason nowNs cm } := by
      unfold detectGCEvents
      rw [if_neg hKne, List.getD_eq_getElem?_getD, List.getElem?_map, hrange]
      rfl
    have hin : pauseIndexAt lastGCCount cm i < cm.pauseNs.length := by
      rw [hidx]
      exact Nat.mod_lt _ hK
    have hinE : pauseIndexAt lastGCCount cm i < cm.pauseEnd.length := by
      rw [hEnd]
      exact hin
    have hdur : toInt64 (cm.pauseNs.getD (pauseIndexAt lastGCCount cm i) 0)
        = (cm.pauseNs.getD (pauseIndexAt lastGCCount cm i) 0 : ℤ) :=
      toInt64_of_lt (hP _ (getD_mem_of_lt hin 0))
    have hend : toInt64 (cm.pauseEnd.getD (pauseIndexAt lastGCCount cm i) 0)
        = (cm.pauseEnd.getD (pauseIndexAt lastGCCount cm i) 0 : ℤ) :=
      toInt64_of_lt (hE _ (getD_mem_of_lt hinE 0))
    refine ⟨?_, ?_, ?_, ?_⟩
    · rw [hgetd]
      show toInt64 (cm.pauseNs.getD (pauseIndexAt lastGCCount cm i) 0) = _
      rw [hdur, hidx]
    · rw [hgetd]
      show toInt64 (cm.pauseEnd.getD (pauseIndexAt lastGCCount cm i) 0) = _
      rw [hend, hidx]
    · rw [hgetd]
    · rw [hgetd]
      exact hseq

/-- Witness for C1 on `reconMetrics`: previous count 5, counter 8, buffer
width 3 — three events, the second one wrapping to buffer index 0. -/
theorem detectGCEvents_reconstruction_witness :
    (0 < reconMetrics.pauseNs.length ∧
      reconMetrics.pauseEnd.length = reconMetrics.pauseNs.length ∧
      5 < reconMetrics.numGC ∧ reconMetrics.numGC < 2 ^ 32 ∧
      (∀ x ∈ reconMetrics.pauseNs, x < 2 ^ 63) ∧
      (∀ x ∈ reconMetrics.pauseEnd, x < 2 ^ 63)) ∧
    (detectGCEvents 0 5 reconMetrics).length = reconMetrics.numGC - 5 ∧
    ((detectGCEvents 0 5 reconMetrics).getD 1 default).durationNs
      = (reconMetrics.pauseNs.getD
          ((reconMetrics.numGC - (reconMetrics.numGC - 5) + 1) % reconMetrics.pauseNs.length) 0
          : ℤ) ∧
    ((detectGCEvents 0 5 reconMetrics).getD 1 default).sequence
      = reconMetrics.numGC - (reconMetrics.numGC - 5) + 1 + 1 :=
  have h := detectGCEvents_reconstruction 0 5 reconMetrics (by decide) (by decide) (by decide)
    (by decide) (by decide) (by decide)
  ⟨⟨by decide, by decide, by decide, by decide, by decide, by decide⟩,
   h.1, (h.2 1 (by decide)).1, (h.2 1 (by decide)).2.2.2⟩

/-- C2 counterexample: for a sorted list of length `n = 20`, the code reads
the 95th percentile at index `int(float64(20)*0.95) = 19`, not at the
spec's `floor((20−1)×0.95) = 18`. -/
theorem percIndex_cex : percIndex 20 95 100 ≠ specPercentileIndex 20 95 100 := by
  decide

/-- C2 (amended): the percentile index the code uses is `⌊n×p⌋` (not
`⌊(n−1)×p⌋`); for `n ≥ 1` and `p < 1` it lies in `[0, n−1]` without any
clamping, it is monotone non-decreasing in `p`, and for `n = 1` it is `0`
for any `p < 1`. -/
theorem percIndex_amended (n num num' den : ℕ) (hn : 1 ≤ n) (hmono : num ≤ num')
    (hlt : num' < den) :
    percIndex n num den = n * num / den ∧
    percIndex n num den ≤ percIndex n num' den ∧
    percIndex n num den ≤ n - 1 ∧ percIndex n num' den ≤ n - 1 ∧
    percIndex 1 num den = 0 := by
  refine ⟨rfl, ?_, ?_, ?_, ?_⟩
  · exact Nat.div_le_div_right (Nat.mul_le_mul_left n hmono)
  · have h := @percIndex_lt_self n num den (by omega) (by omega)
    omega
  · have h := @percIndex_lt_self n num' den (by omega) hlt
    omega
  · have h : num < den := by omega
    simp [percIndex, Nat.div_eq_of_lt h]

/-- Witness for C2 (amended) at `n = 20`, `p = 0.95` and `p' = 0.99`. -/
theorem percIndex_amended_witness :
    (1 ≤ 20 ∧ 95 ≤ 99 ∧ 99 < 100) ∧
    (percIndex 20 95 100 = 20 * 95 / 100 ∧
     percIndex 20 95 100 ≤ percIndex 20 99 100 ∧
     percIndex 20 95 100 ≤ 20 - 1 ∧ percIndex 20 99 100 ≤ 20 - 1 ∧
     percIndex 1 95 100 = 0) :=
  ⟨by decide, percIndex_amended 20 95 99 100 (by decide) (by decide) (by decide)⟩

/-- C3: `Analyze` fails with `ErrInsufficientData` exactly when fewer than
two snapshots are supplied, and succeeds (all statistical sub-computations
being total, zero-valued on missing data) on every input with at least two
snapshots. -/
theorem analyze_insufficientData_iff (ms : List GCMetricsV) (evs : List GCEventV) :
    (analyze ms evs = .error .insufficientData ↔ ms.length < 2) ∧
    ((analyze ms evs).isOk ↔ 2 ≤ ms.length) := by
  unfold analyze
  by_cases h : ms.length < 2
  · rw [if_pos h]
    refine ⟨by simp [h], ?_⟩
    simp [Except.isOk, Except.toBool]
    omega
  · rw [if_neg h]
    refine ⟨by simp [h], ?_⟩
    simp [Except.isOk, Except.toBool]
    omega

/-- C4: on at least two snapshots with strictly increasing timestamps and a
non-decreasing cycle counter, the GC frequency is the counter delta over
the period in seconds, and the average interval is the period divided by
the delta when it is positive, zero otherwise. -/
theorem analyze_gcFrequency (ms : List GCMetricsV) (evs : List GCEventV)
    (hlen : 2 ≤ ms.length)
    (hchain : List.Chain' (fun a b => a.timestampNs < b.timestampNs) ms)
    (hmono : (firstM ms).numGC ≤ (lastM ms).numGC)
    (hw : (lastM ms).numGC < 2 ^ 32) :
    ∃ a, analyze ms evs = .ok a ∧
      a.gcFrequency = (((lastM ms).numGC - (firstM ms).numGC : ℕ) : ℚ) /
        ((periodOf ms : ℚ) / 1000000000) ∧
      a.avgGCInterval = (if 0 < (lastM ms).numGC - (firstM ms).numGC then
        Int.tdiv (periodOf ms) (((lastM ms).numGC - (firstM ms).numGC : ℕ) : ℤ) else 0) := by
  have hper : (firstM ms).timestampNs < (lastM ms).timestampNs :=
    chain_lt_first_last (fun m => m.timestampNs) ms hchain hlen
  have hps : 0 < periodSecondsOf ms := by
    unfold periodSecondsOf periodOf
    apply div_pos _ (by norm_num)
    exact_mod_cast sub_pos.mpr hper
  have hgc : gcCountOf ms = (lastM ms).numGC - (firstM ms).numGC := by
    unfold gcCountOf
    exact u32sub_eq_sub hmono hw
  refine ⟨buildAnalysis ms evs, by unfold analyze; rw [if_neg (by omega)], ?_, ?_⟩
  · show gcFrequencyOf ms = _
    unfold gcFrequencyOf
    rw [if_neg (by omega), if_pos hps, hgc]
    rfl
  · show avgGCIntervalOf ms = _
    unfold avgGCIntervalOf
    rw [if_neg (by omega), hgc]

/-- Witness for C4 on `freqMetrics`: counter delta 4 over 2 seconds gives
frequency 2 cycles/second and average interval 0.5s. -/
theorem analyze_gcFrequency_witness :
    (2 ≤ freqMetrics.length ∧
      List.Chain' (fun a b => a.timestampNs < b.timestampNs) freqMetrics ∧
      (firstM freqMetrics).numGC ≤ (lastM freqMetrics).numGC ∧
      (lastM freqMetrics).numGC < 2 ^ 32) ∧
    (∃ a, analyze freqMetrics [] = .ok a ∧
      a.gcFrequency = (((lastM freqMetrics).numGC - (firstM freqMetrics).numGC : ℕ) : ℚ) /
        ((periodOf freqMetrics : ℚ) / 1000000000) ∧
      a.avgGCInterval = (if 0 < (lastM freqMetrics).numGC - (firstM freqMetrics).numGC then
        Int.tdiv (periodOf freqMetrics)
          (((lastM freqMetrics).numGC - (firstM freqMetrics).numGC : ℕ) : ℤ) else 0)) :=
  ⟨⟨by decide, by norm_num [freqMetrics, zeroMetrics, List.chain'_cons, List.chain'_singleton],
    by decide, by decide⟩,
   analyze_gcFrequency freqMetrics [] (by decide)
     (by norm_num [freqMetrics, zeroMetrics, List.chain'_cons, List.chain'_singleton])
     (by decide) (by decide)⟩

/-- C7: on at least two snapshots with a positive period, the heap growth
rate is the signed heap difference over the period in seconds, and a
shrinking heap gives a strictly negative rate. -/
theorem analyze_heapGrowthRate (ms : List GCMetricsV) (evs : List GCEventV)
    (hlen : 2 ≤ ms.length)
    (hper : (firstM ms).timestampNs < (lastM ms).timestampNs)
    (hf : (firstM ms).heapAlloc < 2 ^ 63) (hl : (lastM ms).heapAlloc < 2 ^ 63) :
    ∃ a, analyze ms evs = .ok a ∧
      a.heapGrowthRate = (((lastM ms).heapAlloc : ℚ) - ((firstM ms).heapAlloc : ℚ)) /
        ((periodOf ms : ℚ) / 1000000000) ∧
      ((lastM ms).heapAlloc < (firstM ms).heapAlloc → a.heapGrowthRate < 0) := by
  have hps : 0 < periodSecondsOf ms := by
    unfold periodSecondsOf periodOf
    apply div_pos _ (by norm_num)
    exact_mod_cast sub_pos.mpr hper
  have hwrap : i64wrap (toInt64 (lastM ms).heapAlloc - toInt64 (firstM ms).heapAlloc)
      = ((lastM ms).heapAlloc : ℤ) - ((firstM ms).heapAlloc : ℤ) := by
    rw [toInt64_of_lt hl, toInt64_of_lt hf]
    apply i64wrap_of_bounds <;> omega
  have hval : heapGrowthRateOf ms = (((lastM ms).heapAlloc : ℚ) - ((firstM ms).heapAlloc : ℚ)) /
      ((periodOf ms : ℚ) / 1000000000) := by
    unfold heapGrowthRateOf
    rw [if_pos ⟨hlen, hps⟩, hwrap]
    push_cast
    rfl
  refine ⟨buildAnalysis ms evs, by unfold analyze; rw [if_neg (by omega)], ?_, ?_⟩
  · exact hval
  · intro hshrink
    show heapGrowthRateOf ms < 0
    rw [hval]
    apply div_neg_of_neg_of_pos
    · rw [sub_neg]
      exact_mod_cast hshrink
    · exact hps

/-- Witness for C7 on `shrinkMetrics`: heap shrinking from 1000 to 400
bytes over 2 seconds gives rate −300 bytes/second, negative. -/
theorem analyze_heapGrowthRate_witness :
    (2 ≤ shrinkMetrics.length ∧
      (firstM shrinkMetrics).timestampNs < (lastM shrinkMetrics).timestampNs ∧
      (firstM shrinkMetrics).heapAlloc < 2 ^ 63 ∧ (lastM shrinkMetrics).heapAlloc < 2 ^ 63) ∧
    (∃ a, analyze shrinkMetrics [] = .ok a ∧
      a.heapGrowthRate =
        (((lastM shrinkMetrics).heapAlloc : ℚ) - ((firstM shrinkMetrics).heapAlloc : ℚ)) /
          ((periodOf shrinkMetrics : ℚ) / 1000000000) ∧
      ((lastM shrinkMetrics).heapAlloc < (firstM shrinkMetrics).heapAlloc →
        a.heapGrowthRate < 0)) :=
  ⟨⟨by decide, by decide, by decide, by decide⟩,
   analyze_heapGrowthRate shrinkMetrics [] (by decide) (by decide) (by decide) (by decide)⟩

/-- C5: after every sequence of snapshot/event insertions, the retained
snapshots and events each never exceed the configured cap, and each
retained sequence is a suffix of the corresponding full appended sequence
(oldest entries evicted first). -/
theorem collector_history_bounded (cap : ℕ) (inputs : List (GCMetricsV ⊕ GCEventV)) :
    (runCollector cap inputs).metrics.length ≤ cap ∧
    (runCollector cap inputs).events.length ≤ cap ∧
    (runCollector cap inputs).metrics.IsSuffix (inputs.filterMap Sum.getLeft?) ∧
    (runCollector cap inputs).events.IsSuffix (inputs.filterMap Sum.getRight?) := by
  have h := runCollector_aux inputs ⟨cap, [], []⟩ [] []
    (List.suffix_refl _) (List.suffix_refl _) (by simp) (by simp)
  simpa [runCollector] using h

/-- C6: the pause-time distribution always contains exactly the six bucket
labels; on the empty event list all six are present at zero, and on the
spec's duration set {0.5ms, 2ms, 7ms, 25ms, 75ms, 150ms, 200ms} the counts
are {1, 1, 1, 1, 1, 2}. -/
theorem getPauseTimeDistribution_buckets :
    (∀ evs : List GCEventV, (getPauseTimeDistribution evs).map Prod.fst = bucketLabels) ∧
    getPauseTimeDistribution [] =
      [("0-1ms", 0), ("1-5ms", 0), ("5-10ms", 0), ("10-50ms", 0), ("50-100ms", 0),
       ("100ms+", 0)] ∧
    getPauseTimeDistribution demoEvents =
      [("0-1ms", 1), ("1-5ms", 1), ("5-10ms", 1), ("10-50ms", 1), ("50-100ms", 1),
       ("100ms+", 2)] := by
  refine ⟨fun evs => dist_keys_aux evs _ (by decide), by decide, by decide⟩

/-- C8 counterexample: on two snapshots with a cumulative pause delta of
10ns over 2 GC cycles but a single positive buffer entry of 3ns, the
fallback `AvgPauseTime` is `10/2 = 5`ns, not the sample mean `3`ns — the
average is not computed "the same as the event-based path" over the
extracted samples. -/
theorem fallback_avg_cex :
    avgPauseOf (analyze fbMetrics []) ≠ specSampleMeanPause fbMetrics := by
  decide

/-- C8 (amended): with no events and at least two snapshots, min, max and
the percentiles are computed from the ascending-sorted strictly positive
pause-buffer entries of the whole window (min/max are the least/greatest
sample, percentiles read at index `⌊n×p⌋`), but the average is
`(ΔPauseTotalNs)/(ΔNumGC)` — the cumulative-total quotient, not the sample
mean — and zero when the cycle counter did not advance. -/
theorem fallback_pause_statistics (ms : List GCMetricsV)
    (hlen : 2 ≤ ms.length) (hpos : positivePauses ms ≠ []) :
    ∃ a, analyze ms [] = .ok a ∧
      a.avgPauseTime = (if 0 < u32sub (lastM ms).numGC (firstM ms).numGC then
          Int.tdiv (toInt64 (u64sub (lastM ms).pauseTotalNs (firstM ms).pauseTotalNs))
            ((u32sub (lastM ms).numGC (firstM ms).numGC : ℕ) : ℤ)
        else 0) ∧
      (a.minPauseTime ∈ positivePauses ms ∧ ∀ x ∈ positivePauses ms, a.minPauseTime ≤ x) ∧
      (a.maxPauseTime ∈ positivePauses ms ∧ ∀ x ∈ positivePauses ms, x ≤ a.maxPauseTime) ∧
      a.p95PauseTime = (sortDurations (positivePauses ms)).getD
        (percIndex (positivePauses ms).length 95 100) 0 ∧
      a.p99PauseTime = (sortDurations (positivePauses ms)).getD
        (percIndex (positivePauses ms).length 99 100) 0 := by
  have hperm : (sortDurations (positivePauses ms)).Perm (positivePauses ms) :=
    List.perm_insertionSort _ _
  have hsor : (sortDurations (positivePauses ms)).Sorted (· ≤ ·) :=
    List.sorted_insertionSort _ _
  have hlen2 : (sortDurations (positivePauses ms)).length = (positivePauses ms).length :=
    hperm.length_eq
  have hSne : sortDurations (positivePauses ms) ≠ [] := by
    intro h
    apply hpos
    have h0 : (positivePauses ms).length = 0 := by rw [← hlen2, h]; rfl
    exact List.length_eq_zero.mp h0
  have hn : 0 < (sortDurations (positivePauses ms)).length := List.length_pos.mpr hSne
  have hstats : pauseStatsOf ms [] =
      { avg := if 0 < u32sub (lastM ms).numGC (firstM ms).numGC then
          Int.tdiv (toInt64 (u64sub (lastM ms).pauseTotalNs (firstM ms).pauseTotalNs))
            ((u32sub (lastM ms).numGC (firstM ms).numGC : ℕ) : ℤ) else 0
        min := (sortDurations (positivePauses ms)).headD 0
        max := (sortDurations (positivePauses ms)).getLastD 0
        p95 := (sortDurations (positivePauses ms)).getD
          (percIndex (sortDurations (positivePauses ms)).length 95 100) 0
        p99 := (sortDurations (positivePauses ms)).getD
          (percIndex (sortDurations (positivePauses ms)).length 99 100) 0 } := by
    show pauseStatsFromMetrics ms = _
    unfold pauseStatsFromMetrics
    rw [if_neg (by omega : ¬ ms.length < 2)]
    simp only
    rw [if_pos hn, if_pos (percIndex_lt_self hn (by omega)),
      if_pos (percIndex_lt_self hn (by omega))]
  refine ⟨buildAnalysis ms [], by unfold analyze; rw [if_neg (by omega)], ?_, ?_, ?_, ?_, ?_⟩
  · show (pauseStatsOf ms []).avg = _
    rw [hstats]
  · constructor
    · show (pauseStatsOf ms []).min ∈ _
      rw [hstats]
      exact hperm.mem_iff.mp (headD_mem hSne 0)
    · intro x hx
      show (pauseStatsOf ms []).min ≤ x
      rw [hstats]
      exact sorted_headD_le hsor (hperm.mem_iff.mpr hx)
  · constructor
    · show (pauseStatsOf ms []).max ∈ _
      rw [hstats]
      exact hperm.mem_iff.mp (getLastD_mem hSne 0)
    · intro x hx
      show x ≤ (pauseStatsOf ms []).max
      rw [hstats]
      exact sorted_le_getLastD hsor (hperm.mem_iff.mpr hx)
  · show (pauseStatsOf ms []).p95 = _
    rw [hstats, hlen2]
  · show (pauseStatsOf ms []).p99 = _
    rw [hstats, hlen2]

/-- Witness for C8 (amended) on `fbMetrics`. -/
theorem fallback_pause_statistics_witness :
    (2 ≤ fbMetrics.length ∧ positivePauses fbMetrics ≠ []) ∧
    (∃ a, analyze fbMetrics [] = .ok a ∧
      a.avgPauseTime = (if 0 < u32sub (lastM fbMetrics).numGC (firstM fbMetrics).numGC then
          Int.tdiv
            (toInt64 (u64sub (lastM fbMetrics).pauseTotalNs (firstM fbMetrics).pauseTotalNs))
            ((u32sub (lastM fbMetrics).numGC (firstM fbMetrics).numGC : ℕ) : ℤ)
        else 0) ∧
      (a.minPauseTime ∈ positivePauses fbMetrics ∧
        ∀ x ∈ positivePauses fbMetrics, a.minPauseTime ≤ x) ∧
      (a.maxPauseTime ∈ positivePauses fbMetrics ∧
        ∀ x ∈ positivePauses fbMetrics, x ≤ a.maxPauseTime) ∧
      a.p95PauseTime = (sortDurations (positivePauses fbMetrics)).getD
        (percIndex (positivePauses fbMetrics).length 95 100) 0 ∧
      a.p99PauseTime = (sortDurations (positivePauses fbMetrics)).getD
        (percIndex (positivePauses fbMetrics).length 99 100) 0) :=
  ⟨⟨by decide, by decide⟩, fallback_pause_statistics fbMetrics (by decide) (by decide)⟩

/-- C10: the six bucket counts sum to the number of events — the bucket
predicates partition the duration domain, each event counted once. -/
theorem getPauseTimeDistribution_total (evs : List GCEventV) :
    ((getPauseTimeDistribution evs).map Prod.snd).sum = evs.length := by
  have h := dist_sum_aux evs
    [("0-1ms", 0), ("1-5ms", 0), ("5-10ms", 0), ("10-50ms", 0), ("50-100ms", 0), ("100ms+", 0)]
  simpa [getPauseTimeDistribution] using h

/-- C9 counterexample: `GetMetrics` copies only the slice of pointers, so
mutating the snapshot value reached through the returned pointer changes
the collector's internal metrics storage — the returned data is not a
defensive copy of the snapshots themselves. -/
theorem getMetrics_shared_mutation_cex :
    internalView
        { cexMem with heap := writeNumGC cexMem.heap ((getMetricsPtrs cexMem).headD 0) 99 }
      ≠ internalView cexMem := by
  decide

/-- C9 (amended): `GetMetrics`/`GetEvents` return a fresh slice that shares
the pointed-to snapshots, so only slice-level mutation is isolated;
`GetLatestMetrics` alone returns a deep clone: its address is fresh (not in
the internal slice), its observable value equals the internally held latest
snapshot, and stores through the clone — to its scalar field or into its
freshly allocated pause buffer — leave the internal storage unchanged. -/
theorem reader_copies_amended (st : CollectorMem)
    (hne : st.metricsAddrs ≠ [])
    (hwf : ∀ a ∈ st.metricsAddrs, a < st.heap.length)
    (hwf2 : ∀ a ∈ st.metricsAddrs, (readMetricsCell st.heap a).2 < st.heap.length) :
    (getLatestClone st).2 ∉ getMetricsPtrs st ∧
    metricsValue (getLatestClone st).1 (getLatestClone st).2
      = metricsValue st.heap (st.metricsAddrs.getLastD 0) ∧
    (∀ v, internalView ⟨writeNumGC (getLatestClone st).1 (getLatestClone st).2 v,
        st.metricsAddrs⟩ = internalView st) ∧
    (∀ d, internalView ⟨writeArr (getLatestClone st).1
        (readMetricsCell (getLatestClone st).1 (getLatestClone st).2).2 d,
        st.metricsAddrs⟩ = internalView st) := by
  have hgc : getLatestClone st
      = ((st.heap ++ [HObj.arrObj (readArr st.heap
            (readMetricsCell st.heap (st.metricsAddrs.getLastD 0)).2)])
          ++ [HObj.metricsObj (readMetricsCell st.heap (st.metricsAddrs.getLastD 0)).1
              st.heap.length],
         st.heap.length + 1) := by
    unfold getLatestClone
    simp
  have hlen1 : (st.heap ++ [HObj.arrObj (readArr st.heap
      (readMetricsCell st.heap (st.metricsAddrs.getLastD 0)).2)]).length
      = st.heap.length + 1 := by
    simp
  have hreadmo : readObj (getLatestClone st).1 (st.heap.length + 1)
      = HObj.metricsObj (readMetricsCell st.heap (st.metricsAddrs.getLastD 0)).1
          st.heap.length := by
    rw [hgc]
    show readObj _ (st.heap.length + 1) = _
    rw [← hlen1, readObj_concat_length]
  have hreadarr : readObj (getLatestClone st).1 st.heap.length
      = HObj.arrObj (readArr st.heap
          (readMetricsCell st.heap (st.metricsAddrs.getLastD 0)).2) := by
    rw [hgc]
    show readObj _ st.heap.length = _
    rw [readObj_append_of_lt (by omega), readObj_concat_length]
  have hcellc : readMetricsCell (getLatestClone st).1 (getLatestClone st).2
      = ((readMetricsCell st.heap (st.metricsAddrs.getLastD 0)).1, st.heap.length) := by
    rw [show (getLatestClone st).2 = st.heap.length + 1 from by rw [hgc]]
    unfold readMetricsCell
    rw [hreadmo]
    rfl
  have hcell_int : ∀ a ∈ st.metricsAddrs,
      readMetricsCell (getLatestClone st).1 a = readMetricsCell st.heap a := by
    intro a ha
    rw [hgc]
    show readMetricsCell _ a = _
    rw [List.append_assoc]
    exact readMetricsCell_append (hwf a ha)
  have hmv_int : ∀ a ∈ st.metricsAddrs,
      metricsValue (getLatestClone st).1 a = metricsValue st.heap a := by
    intro a ha
    rw [hgc]
    show metricsValue _ a = _
    rw [List.append_assoc]
    exact metricsValue_append (hwf a ha) (hwf2 a ha)
  refine ⟨?_, ?_, ?_, ?_⟩
  · intro hmem
    have h1 := hwf _ hmem
    rw [hgc] at hmem
    have h2 : st.heap.length + 1 < st.heap.length := by
      have := hwf _ hmem
      omega
    omega
  · unfold metricsValue
    rw [hcellc]
    show (_, readArr (getLatestClone st).1 st.heap.length) = _
    unfold readArr
    rw [hreadarr]
    rfl
  · intro v
    apply internalView_congr
    intro a ha
    unfold writeNumGC
    rw [metricsValue_set_other (c := (getLatestClone st).2) _ _,
      hmv_int a ha]
    · rw [show (getLatestClone st).2 = st.heap.length + 1 from by rw [hgc]]
      have := hwf a ha
      omega
    · rw [hcell_int a ha,
        show (getLatestClone st).2 = st.heap.length + 1 from by rw [hgc]]
      have := hwf2 a ha
      omega
  · intro d
    apply internalView_congr
    intro a ha
    unfold writeArr
    rw [metricsValue_set_other (c := (readMetricsCell (getLatestClone st).1
        (getLatestClone st).2).2) _ _, hmv_int a ha]
    · rw [hcellc]
      have := hwf a ha
      omega
    · rw [hcell_int a ha, hcellc]
      have := hwf2 a ha
      omega

/-- Witness for C9 (amended) on `cexMem`. -/
theorem reader_copies_amended_witness :
    (cexMem.metricsAddrs ≠ [] ∧
      (∀ a ∈ cexMem.metricsAddrs, a < cexMem.heap.length) ∧
      (∀ a ∈ cexMem.metricsAddrs, (readMetricsCell cexMem.heap a).2 < cexMem.heap.length)) ∧
    ((getLatestClone cexMem).2 ∉ getMetricsPtrs cexMem ∧
      metricsValue (getLatestClone cexMem).1 (getLatestClone cexMem).2
        = metricsValue cexMem.heap (cexMem.metricsAddrs.getLastD 0) ∧
      (∀ v, internalView ⟨writeNumGC (getLatestClone cexMem).1 (getLatestClone cexMem).2 v,
          cexMem.metricsAddrs⟩ = internalView cexMem) ∧
      (∀ d, internalView ⟨writeArr (getLatestClone cexMem).1
          (readMetricsCell (getLatestClone cexMem).1 (getLatestClone cexMem).2).2 d,
          cexMem.metricsAddrs⟩ = internalView cexMem)) :=
  ⟨⟨by decide, by decide, by decide⟩,
   reader_copies_amended cexMem (by decide) (by decide) (by decide)⟩

end GCA
